import Mathlib

/-!
Verification of the baseline/anomaly-detection engine (`diffing`) of an IDOR
scanner. The Python module `src/idor/diffing.py` is shallowly embedded below:
results are records, the insertion-ordered Python `dict` used as a frequency
table becomes an association list preserving insertion order, the in-place
marking loop becomes a map, and the floating-point similarity score is
embedded over exact rationals.
-/

/-- Modelled from the spec: the `ScanResult` record (its defining module,
`models`, is not among the available sources; field names are corroborated by
the `reporter` and `cli` modules). Per the data model: `id` is the substituted
identifier, `url` the resolved request URL, `status` the HTTP status or absent
on transport failure, `body_len` the body byte length (0 if unavailable),
`error` present only on transport failure, and `diff_status`/`diff_len` are
tri-state flags where `none` means unset. -/
structure ScanResult where
  id : Nat
  url : String
  status : Option Nat
  body_len : Nat
  error : Option String
  diff_status : Option Bool
  diff_len : Option Bool
deriving DecidableEq

/-- Embeds `compare_response`: compare one result against baseline values,
returning the pair `(diff_status, diff_len)`. -/
def compare_response (result : ScanResult) (baseline_status : Option Nat)
    (baseline_length : Nat) : Bool × Bool :=
  let diff_status :=
    match baseline_status, result.status with
    | some bs, some s => decide (s ≠ bs)
    | _, _ => false
  let diff_len :=
    if 0 < baseline_length ∧ 0 < result.body_len then
      decide (result.body_len ≠ baseline_length)
    else false
  (diff_status, diff_len)

/-- The pattern key `(status, body_len)` of a result, defined exactly when a
status is present (the guard `result.status is not None` in the source). -/
def patKey (r : ScanResult) : Option (Nat × Nat) :=
  r.status.map (fun s => (s, r.body_len))

/-- One step of the Python dict update `patterns[key] = patterns.get(key, 0) + 1`
on an insertion-ordered association list: an existing key keeps its position,
a new key is appended at the end. -/
def updateCount : List ((Nat × Nat) × Nat) → (Nat × Nat) → List ((Nat × Nat) × Nat)
  | [], k => [(k, 1)]
  | (k0, c) :: rest, k =>
    if k0 = k then (k0, c + 1) :: rest else (k0, c) :: updateCount rest k

/-- The step function of the frequency-table loop in `find_baseline_pattern`. -/
def patStep (acc : List ((Nat × Nat) × Nat)) (r : ScanResult) :
    List ((Nat × Nat) × Nat) :=
  match patKey r with
  | none => acc
  | some k => updateCount acc k

/-- The insertion-ordered frequency table built by `find_baseline_pattern`. -/
def buildPatterns (results : List ScanResult) : List ((Nat × Nat) × Nat) :=
  results.foldl patStep []

/-- Python `max(items, key=lambda x: x[1])`: the first maximal element wins
ties, since `max` replaces its running best only on a strictly greater key. -/
def maxStep (best y : (Nat × Nat) × Nat) : (Nat × Nat) × Nat :=
  if best.2 < y.2 then y else best

/-- Maximum-count entry of the frequency table, `none` on an empty table. -/
def maxByCount : List ((Nat × Nat) × Nat) → Option ((Nat × Nat) × Nat)
  | [] => none
  | x :: xs => some (xs.foldl maxStep x)

/-- Embeds `find_baseline_pattern`: the most common `(status, body_len)`
pattern, or `(none, 0)` when no result has a status. -/
def find_baseline_pattern (results : List ScanResult) : Option Nat × Nat :=
  match maxByCount (buildPatterns results) with
  | none => (none, 0)
  | some kc => (some kc.1.1, kc.1.2)

/-- The per-result update performed by the loop body of `mark_anomalies`:
a result without a status is untouched; otherwise `diff_status` is set to
`none` when no status baseline exists and `diff_len` to `none` when the
baseline length is zero, else to the inequality test against the baseline. -/
def markOne (baseline_status : Option Nat) (baseline_length : Nat)
    (result : ScanResult) : ScanResult :=
  match result.status with
  | none => result
  | some s =>
    { result with
      diff_status :=
        (match baseline_status with
         | some bs => some (decide (s ≠ bs))
         | none => none),
      diff_len :=
        if 0 < baseline_length then
          some (decide (result.body_len ≠ baseline_length))
        else none }

/-- Embeds `mark_anomalies`: compute the joint baseline once, then update
every result (the in-place mutation of the Python list is modelled as a map
over the list, which preserves length and order). -/
def mark_anomalies (results : List ScanResult) : List ScanResult :=
  results.map
    (markOne (find_baseline_pattern results).1 (find_baseline_pattern results).2)

/-- Python truthiness of an optional boolean field: `None` and `False` are
falsy, only `True` is truthy. -/
def truthy : Option Bool → Bool
  | some b => b
  | none => false

/-- Embeds `get_anomalies`: keep the results whose `diff_status` or
`diff_len` is truthy. -/
def get_anomalies (results : List ScanResult) : List ScanResult :=
  results.filter (fun r => truthy r.diff_status || truthy r.diff_len)

/-- Embeds `calculate_similarity_score` with exact rational arithmetic in
place of the source's floating point. -/
def calculate_similarity_score (result1 result2 : ScanResult) : ℚ :=
  match result1.status, result2.status with
  | some s1, some s2 =>
    let statusScore : ℚ := if s1 = s2 then 1 / 2 else 0
    let lenScore : ℚ :=
      if 0 < result1.body_len ∧ 0 < result2.body_len then
        (1 / 2 : ℚ) *
          (1 - |(result1.body_len : ℚ) - (result2.body_len : ℚ)| /
            (max (result1.body_len : ℚ) (result2.body_len : ℚ)))
      else if result1.body_len = result2.body_len then 1 / 2 else 0
    statusScore + lenScore
  | _, _ => 0

/-- Number of results in the list whose pattern key is `k`: the frequency of
the pattern `k` among the results that have a status. -/
def freqP (results : List ScanResult) (k : Nat × Nat) : Nat :=
  results.countP (fun r => decide (patKey r = some k))

/-- Index of the first result whose pattern key is `k`. -/
def firstOcc (results : List ScanResult) (k : Nat × Nat) : Nat :=
  results.findIdx (fun r => decide (patKey r = some k))

/-- Count stored for key `k` in an association list, `0` when absent. -/
def lookupCount : List ((Nat × Nat) × Nat) → (Nat × Nat) → Nat
  | [], _ => 0
  | (k0, c) :: rest, k => if k0 = k then c else lookupCount rest k

/-- Append a key if it is new, keep the list unchanged otherwise: the key
order of the Python dict. -/
def insertKey (ks : List (Nat × Nat)) (k : Nat × Nat) : List (Nat × Nat) :=
  if k ∈ ks then ks else ks ++ [k]

/-- The step function of `firstOccKeys`. -/
def keyStep (ks : List (Nat × Nat)) (r : ScanResult) : List (Nat × Nat) :=
  match patKey r with
  | none => ks
  | some k => insertKey ks k

/-- The pattern keys of a result list in order of first occurrence. -/
def firstOccKeys (results : List ScanResult) : List (Nat × Nat) :=
  results.foldl keyStep []

/-! Basic facts about the per-result marking step. -/

theorem markOne_id (bs : Option Nat) (bl : Nat) (r : ScanResult) :
    (markOne bs bl r).id = r.id := by
  cases h : r.status <;> simp [markOne, h]

theorem markOne_url (bs : Option Nat) (bl : Nat) (r : ScanResult) :
    (markOne bs bl r).url = r.url := by
  cases h : r.status <;> simp [markOne, h]

theorem markOne_status (bs : Option Nat) (bl : Nat) (r : ScanResult) :
    (markOne bs bl r).status = r.status := by
  cases h : r.status <;> simp [markOne, h]

theorem markOne_body_len (bs : Option Nat) (bl : Nat) (r : ScanResult) :
    (markOne bs bl r).body_len = r.body_len := by
  cases h : r.status <;> simp [markOne, h]

theorem markOne_error (bs : Option Nat) (bl : Nat) (r : ScanResult) :
    (markOne bs bl r).error = r.error := by
  cases h : r.status <;> simp [markOne, h]

theorem truthy_eq (o : Option Bool) : truthy o = decide (o = some true) := by
  rcases o with _ | b
  · rfl
  · cases b <;> rfl

/-- Concrete scenario for the zero-length-body behaviour of `mark_anomalies`:
two 100-byte responses and one empty body, all with status 200. -/
def c1Results : List ScanResult :=
  [⟨1, "u", some 200, 100, none, none, none⟩,
   ⟨2, "u", some 200, 100, none, none, none⟩,
   ⟨3, "u", some 200, 0, none, none, none⟩]

/-- C1 (counterexample): `mark_anomalies` does not apply `compare_response`'s
zero-length-body suppression. In `c1Results` the baseline is `(200, 100)` and
the result with `body_len = 0` comes out with `diff_len = some true`: it is
marked length-anomalous and reported by `get_anomalies`. -/
theorem zero_body_marked_counterexample :
    (⟨3, "u", some 200, 0, none, none, none⟩ : ScanResult).body_len = 0 ∧
    (mark_anomalies c1Results)[2]? =
      some ⟨3, "u", some 200, 0, none, some false, some true⟩ ∧
    get_anomalies (mark_anomalies c1Results) =
      [⟨3, "u", some 200, 0, none, some false, some true⟩] :=
  ⟨rfl, rfl, rfl⟩

/-- C1 (amended): after `mark_anomalies`, a result with a status and
`body_len = 0` has `diff_len = some true` whenever the baseline length is
nonzero, and `diff_len = none` when the baseline length is zero: the
zero-length suppression of `mark_anomalies` acts only on the baseline side,
not on the result's own body length. -/
theorem mark_anomalies_zero_body (results : List ScanResult) (i : Nat)
    (r : ScanResult) (hr : results[i]? = some r)
    (hs : r.status.isSome = true) (hb : r.body_len = 0) :
    ((mark_anomalies results)[i]?).map ScanResult.diff_len =
      some (if 0 < (find_baseline_pattern results).2 then some true else none) := by
  obtain ⟨s, hsv⟩ := Option.isSome_iff_exists.mp hs
  rw [mark_anomalies, List.getElem?_map, hr]
  simp only [Option.map_some']
  simp only [markOne, hsv]
  by_cases h : 0 < (find_baseline_pattern results).2
  · simp only [h, if_true, hb]
    have h0 : (0 : Nat) ≠ (find_baseline_pattern results).2 := by omega
    simp [h0]
  · simp [h]

/-- Witness for the amended C1 at the concrete scenario `c1Results`. -/
theorem mark_anomalies_zero_body_witness :
    ((mark_anomalies c1Results)[2]?).map ScanResult.diff_len =
      some (if 0 < (find_baseline_pattern c1Results).2 then some true else none) :=
  mark_anomalies_zero_body c1Results 2 ⟨3, "u", some 200, 0, none, none, none⟩
    rfl rfl rfl

/-- C2: `compare_response` sets `diff_status` exactly when both a baseline
status and a result status exist and differ, and `diff_len` exactly when both
the baseline length and the body length are nonzero and differ; otherwise the
flags are false. -/
theorem compare_response_spec (r : ScanResult) (bs : Option Nat) (bl : Nat) :
    ((compare_response r bs bl).1 = true ↔
      ∃ b s, bs = some b ∧ r.status = some s ∧ s ≠ b) ∧
    ((compare_response r bs bl).2 = true ↔
      0 < bl ∧ 0 < r.body_len ∧ r.body_len ≠ bl) := by
  constructor
  · rcases bs with _ | b
    · simp [compare_response]
    · rcases h : r.status with _ | s
      · simp [compare_response, h]
      · simp [compare_response, h]
  · by_cases h : 0 < bl ∧ 0 < r.body_len
    · simp [compare_response, h]
    · simp [compare_response, h]
      tauto

/-- C6: `get_anomalies` is the subsequence of results whose `diff_status` or
`diff_len` is the value true; unset (`none`) fields never select a result. -/
theorem get_anomalies_spec (results : List ScanResult) :
    (get_anomalies results).Sublist results ∧
    get_anomalies results =
      results.filter
        (fun r => decide (r.diff_status = some true ∨ r.diff_len = some true)) := by
  constructor
  · exact List.filter_sublist results
  · apply List.filter_congr
    intro r _
    simp only [truthy_eq]
    by_cases h1 : r.diff_status = some true <;> by_cases h2 : r.diff_len = some true <;>
      simp [h1, h2]

/-- C7: a result without a status is left untouched by the marking pass (its
diff fields stay unset, so in particular a transport failure keeps
`diff_status = diff_len = none`), it reappears unchanged in the output of
`mark_anomalies`, and it is never an element of any `get_anomalies` output. -/
theorem statusless_results_unmarked (results : List ScanResult) (r : ScanResult)
    (hs : r.status = none) (hd1 : r.diff_status = none) (hd2 : r.diff_len = none) :
    (∀ bs bl, markOne bs bl r = r) ∧
    (r ∈ results → r ∈ mark_anomalies results) ∧
    (∀ l, r ∉ get_anomalies l) := by
  refine ⟨fun bs bl => by simp [markOne, hs], ?_, ?_⟩
  · intro h
    exact List.mem_map.mpr ⟨r, h, by simp [markOne, hs]⟩
  · intro l hmem
    rw [get_anomalies, List.mem_filter] at hmem
    simp [truthy, hd1, hd2] at hmem

/-- Concrete scenario for C7: six identical 200/150-byte responses and one
transport failure at identifier 7. -/
def c7Results : List ScanResult :=
  [⟨1, "u", some 200, 150, none, none, none⟩,
   ⟨2, "u", some 200, 150, none, none, none⟩,
   ⟨3, "u", some 200, 150, none, none, none⟩,
   ⟨4, "u", some 200, 150, none, none, none⟩,
   ⟨5, "u", some 200, 150, none, none, none⟩,
   ⟨6, "u", some 200, 150, none, none, none⟩,
   ⟨7, "u", none, 0, some "timeout", none, none⟩]

/-- Witness for C7: the timed-out result of `c7Results` is excluded from the
anomaly set. -/
theorem statusless_results_unmarked_witness :
    (⟨7, "u", none, 0, some "timeout", none, none⟩ : ScanResult) ∉
      get_anomalies (mark_anomalies c7Results) :=
  (statusless_results_unmarked c7Results
      ⟨7, "u", none, 0, some "timeout", none, none⟩ rfl rfl rfl).2.2
    (mark_anomalies c7Results)

/-- Concrete scenario for C8: identifiers 1..5 all return (200, 120) except
identifier 3, which returns (200, 340). -/
def c8Results : List ScanResult :=
  [⟨1, "u", some 200, 120, none, none, none⟩,
   ⟨2, "u", some 200, 120, none, none, none⟩,
   ⟨3, "u", some 200, 340, none, none, none⟩,
   ⟨4, "u", some 200, 120, none, none, none⟩,
   ⟨5, "u", some 200, 120, none, none, none⟩]

/-- C8: on the five-result scenario the baseline is `(200, 120)` and the only
anomaly is the result with identifier 3, flagged `diff_status = false`,
`diff_len = true`. -/
theorem scenario_single_length_anomaly :
    find_baseline_pattern c8Results = (some 200, 120) ∧
    get_anomalies (mark_anomalies c8Results) =
      [⟨3, "u", some 200, 340, none, some false, some true⟩] :=
  ⟨rfl, rfl⟩

/-- C10: `mark_anomalies` preserves the length and order of the result list
and, position by position, the `id`, `url`, `status`, `body_len` and `error`
fields; only the diff flags can change. -/
theorem mark_anomalies_frame (results : List ScanResult) :
    (mark_anomalies results).length = results.length ∧
    ∀ (i : Nat) (r rm : ScanResult), results[i]? = some r →
      (mark_anomalies results)[i]? = some rm →
      rm.id = r.id ∧ rm.url = r.url ∧ rm.status = r.status ∧
      rm.body_len = r.body_len ∧ rm.error = r.error := by
  constructor
  · simp [mark_anomalies]
  · intro i r rm hr hrm
    rw [mark_anomalies, List.getElem?_map, hr] at hrm
    simp only [Option.map_some'] at hrm
    obtain rfl : markOne (find_baseline_pattern results).1
        (find_baseline_pattern results).2 r = rm := by
      exact Option.some_injective _ hrm
    exact ⟨markOne_id _ _ _, markOne_url _ _ _, markOne_status _ _ _,
      markOne_body_len _ _ _, markOne_error _ _ _⟩

/-- Witness for C10 at the scenario `c8Results`, position 2. -/
theorem mark_anomalies_frame_witness :
    (⟨3, "u", some 200, 340, none, some false, some true⟩ : ScanResult).id =
      (⟨3, "u", some 200, 340, none, none, none⟩ : ScanResult).id :=
  ((mark_anomalies_frame c8Results).2 2
    ⟨3, "u", some 200, 340, none, none, none⟩
    ⟨3, "u", some 200, 340, none, some false, some true⟩ rfl rfl).1

/-- C9: the similarity score is 0 when either result lacks a status;
otherwise it is one half for an exact status match plus one half scaled by
body-length closeness when both lengths are nonzero, or a flat extra half
when both lengths are exactly zero; and a result with a status and a nonzero
body length has similarity 1 with itself. -/
theorem calculate_similarity_score_spec (r1 r2 r : ScanResult) :
    ((r1.status = none ∨ r2.status = none) → calculate_similarity_score r1 r2 = 0) ∧
    (∀ s1 s2, r1.status = some s1 → r2.status = some s2 →
      calculate_similarity_score r1 r2 =
        (if s1 = s2 then (1 : ℚ) / 2 else 0) +
        (if 0 < r1.body_len ∧ 0 < r2.body_len then
          (1 / 2 : ℚ) *
            (1 - |(r1.body_len : ℚ) - (r2.body_len : ℚ)| /
              (max (r1.body_len : ℚ) (r2.body_len : ℚ)))
        else if r1.body_len = 0 ∧ r2.body_len = 0 then (1 : ℚ) / 2 else 0)) ∧
    (r.status.isSome = true → 0 < r.body_len → calculate_similarity_score r r = 1) := by
  refine ⟨?_, ?_, ?_⟩
  · intro h
    rcases h with h | h
    · rcases h2 : r2.status with _ | s2 <;> simp [calculate_similarity_score, h, h2]
    · rcases h1 : r1.status with _ | s1 <;> simp [calculate_similarity_score, h, h1]
  · intro s1 s2 h1 h2
    simp only [calculate_similarity_score, h1, h2]
    by_cases hpos : 0 < r1.body_len ∧ 0 < r2.body_len
    · simp [hpos]
    · have hiff : (r1.body_len = r2.body_len) ↔ (r1.body_len = 0 ∧ r2.body_len = 0) := by
        omega
      simp only [hpos, if_false]
      rw [if_congr hiff rfl rfl]
  · intro hs hb
    obtain ⟨s, hsv⟩ := Option.isSome_iff_exists.mp hs
    simp only [calculate_similarity_score, hsv]
    have hpos : 0 < r.body_len ∧ 0 < r.body_len := ⟨hb, hb⟩
    simp only [hpos, if_true, if_pos rfl, sub_self, abs_zero, zero_div, sub_zero,
      mul_one]
    norm_num

/-- Witness for C9: a concrete result scores 1 against itself. -/
theorem calculate_similarity_score_spec_witness :
    calculate_similarity_score ⟨1, "u", some 200, 120, none, none, none⟩
      ⟨1, "u", some 200, 120, none, none, none⟩ = 1 :=
  (calculate_similarity_score_spec ⟨1, "u", some 200, 120, none, none, none⟩
    ⟨1, "u", some 200, 120, none, none, none⟩
    ⟨1, "u", some 200, 120, none, none, none⟩).2.2 rfl (by decide)

/-! Idempotence of the marking pass: marking changes neither the status nor
the body length of any result, so the baseline of a marked list is the
baseline of the original list, and re-marking rewrites the same flags. -/

theorem patKey_markOne (bs : Option Nat) (bl : Nat) (r : ScanResult) :
    patKey (markOne bs bl r) = patKey r := by
  simp [patKey, markOne_status, markOne_body_len]

theorem buildPatterns_map_of_patKey (f : ScanResult → ScanResult)
    (hf : ∀ r, patKey (f r) = patKey r) (l : List ScanResult) :
    buildPatterns (l.map f) = buildPatterns l := by
  unfold buildPatterns
  rw [List.foldl_map]
  have hstep : (fun acc r => patStep acc (f r)) = patStep := by
    funext acc r
    simp [patStep, hf]
  rw [hstep]

theorem find_baseline_pattern_mark (results : List ScanResult) :
    find_baseline_pattern (mark_anomalies results) = find_baseline_pattern results := by
  unfold find_baseline_pattern
  rw [mark_anomalies,
    buildPatterns_map_of_patKey _ (fun r => patKey_markOne _ _ r) results]

theorem markOne_markOne (bs : Option Nat) (bl : Nat) (r : ScanResult) :
    markOne bs bl (markOne bs bl r) = markOne bs bl r := by
  rcases h : r.status with _ | s
  · simp [markOne, h]
  · simp [markOne, h]

/-- C3: `mark_anomalies` is idempotent: a second application recomputes the
same baseline (marking touches no status or body length) and rewrites every
diff flag to the value it already has, so the marked list is unchanged. -/
theorem mark_anomalies_idempotent (results : List ScanResult) :
    mark_anomalies (mark_anomalies results) = mark_anomalies results := by
  have hbase := find_baseline_pattern_mark results
  show (mark_anomalies results).map
      (markOne (find_baseline_pattern (mark_anomalies results)).1
        (find_baseline_pattern (mark_anomalies results)).2) = mark_anomalies results
  rw [hbase]
  show (results.map
      (markOne (find_baseline_pattern results).1 (find_baseline_pattern results).2)).map
      (markOne (find_baseline_pattern results).1 (find_baseline_pattern results).2) =
    mark_anomalies results
  rw [List.map_map]
  unfold mark_anomalies
  apply List.map_congr_left
  intro r _
  exact markOne_markOne _ _ _

/-! Correspondence between the association-list frequency table and pattern
frequencies in the result list. -/

theorem lookupCount_updateCount_self (l : List ((Nat × Nat) × Nat)) (k : Nat × Nat) :
    lookupCount (updateCount l k) k = lookupCount l k + 1 := by
  induction l with
  | nil => simp [updateCount, lookupCount]
  | cons x rest ih =>
    obtain ⟨k0, c⟩ := x
    by_cases h : k0 = k
    · subst h
      simp [updateCount, lookupCount]
    · simp [updateCount, lookupCount, h, ih]

theorem lookupCount_updateCount_ne (l : List ((Nat × Nat) × Nat)) (k q : Nat × Nat)
    (h : q ≠ k) : lookupCount (updateCount l k) q = lookupCount l q := by
  induction l with
  | nil =>
    simp only [updateCount, lookupCount]
    exact if_neg (fun hh => h (Eq.symm hh))
  | cons x rest ih =>
    obtain ⟨k0, c⟩ := x
    by_cases h0 : k0 = k
    · subst h0
      have : ¬ (k0 = q) := fun hh => h (Eq.symm hh)
      simp [updateCount, lookupCount, this]
    · by_cases h1 : k0 = q
      · subst h1
        simp [updateCount, lookupCount, h0]
      · simp [updateCount, lookupCount, h0, h1, ih]

theorem lookupCount_foldl (k : Nat × Nat) (rs : List ScanResult) :
    ∀ acc, lookupCount (rs.foldl patStep acc) k = lookupCount acc k + freqP rs k := by
  induction rs with
  | nil =>
    intro acc
    simp [freqP]
  | cons r rest ih =>
    intro acc
    rw [List.foldl_cons, ih]
    rcases h : patKey r with _ | k0
    · simp [patStep, h, freqP, List.countP_cons]
    · by_cases hk : k0 = k
      · subst hk
        simp [patStep, h, lookupCount_updateCount_self, freqP, List.countP_cons]
        omega
      · have hne : k ≠ k0 := fun hh => hk (Eq.symm hh)
        simp [patStep, h, lookupCount_updateCount_ne _ _ _ hne, freqP,
          List.countP_cons, hk]

theorem lookupCount_buildPatterns (results : List ScanResult) (k : Nat × Nat) :
    lookupCount (buildPatterns results) k = freqP results k := by
  have h := lookupCount_foldl k results []
  simpa [buildPatterns, lookupCount] using h

/-! The fold modelling Python `max` keeps the first entry achieving the
maximal count: the table splits into a prefix of strictly smaller counts,
the chosen entry, and a suffix of counts at most as large. -/

theorem foldl_maxStep_split (xs : List ((Nat × Nat) × Nat)) (x : (Nat × Nat) × Nat) :
    ∃ l1 l2, x :: xs = l1 ++ (xs.foldl maxStep x) :: l2 ∧
      (∀ y ∈ l1, y.2 < (xs.foldl maxStep x).2) ∧
      (∀ y ∈ l2, y.2 ≤ (xs.foldl maxStep x).2) := by
  induction xs generalizing x with
  | nil => exact ⟨[], [], rfl, by simp, by simp⟩
  | cons y ys ih =>
    rw [List.foldl_cons]
    by_cases h : x.2 < y.2
    · have hstep : maxStep x y = y := by simp [maxStep, h]
      rw [hstep]
      obtain ⟨l1, l2, heq, h1, h2⟩ := ih y
      refine ⟨x :: l1, l2, ?_, ?_, h2⟩
      · rw [List.cons_append, ← heq]
      · intro z hz
        rcases List.mem_cons.mp hz with rfl | hz2
        · have hy : y.2 ≤ (ys.foldl maxStep y).2 := by
            rcases l1 with _ | ⟨w, l1t⟩
            · simp only [List.nil_append] at heq
              injection heq with hy2 hys
              exact le_of_eq (congrArg Prod.snd hy2)
            · simp only [List.cons_append] at heq
              injection heq with hw hrest
              have hmem : y ∈ w :: l1t := by
                rw [hw]
                exact List.mem_cons_self _ _
              exact le_of_lt (h1 y hmem)
          exact lt_of_lt_of_le h hy
        · exact h1 z hz2
    · have hstep : maxStep x y = x := by simp [maxStep, h]
      rw [hstep]
      obtain ⟨l1, l2, heq, h1, h2⟩ := ih x
      rcases l1 with _ | ⟨w, l1t⟩
      · simp only [List.nil_append] at heq
        injection heq with hx hys
        refine ⟨[], y :: l2, ?_, by simp, ?_⟩
        · rw [List.nil_append, ← hx, ← hys]
        · intro z hz
          rcases List.mem_cons.mp hz with rfl | hz2
          · calc z.2 ≤ x.2 := le_of_not_lt h
            _ = (ys.foldl maxStep x).2 := congrArg Prod.snd hx
          · exact h2 z hz2
      · simp only [List.cons_append] at heq
        injection heq with hw hrest
        refine ⟨x :: y :: l1t, l2, ?_, ?_, h2⟩
        · simp only [List.cons_append]
          rw [← hrest]
        · intro z hz
          have hx2 : x.2 < (ys.foldl maxStep x).2 := by
            have hmem : x ∈ w :: l1t := by
              rw [hw]
              exact List.mem_cons_self _ _
            exact h1 x hmem
          rcases List.mem_cons.mp hz with rfl | hz2
          · exact hx2
          rcases List.mem_cons.mp hz2 with rfl | hz3
          · exact lt_of_le_of_lt (le_of_not_lt h) hx2
          · exact h1 z (List.mem_cons_of_mem _ hz3)

theorem foldl_maxStep_le (xs : List ((Nat × Nat) × Nat)) (x : (Nat × Nat) × Nat) :
    ∀ y ∈ x :: xs, y.2 ≤ (xs.foldl maxStep x).2 := by
  obtain ⟨l1, l2, heq, h1, h2⟩ := foldl_maxStep_split xs x
  intro y hy
  rw [heq] at hy
  rcases List.mem_append.mp hy with h | h
  · exact le_of_lt (h1 y h)
  · rcases List.mem_cons.mp h with rfl | h
    · exact le_refl _
    · exact h2 y h

theorem foldl_maxStep_mem (xs : List ((Nat × Nat) × Nat)) (x : (Nat × Nat) × Nat) :
    xs.foldl maxStep x ∈ x :: xs := by
  obtain ⟨l1, l2, heq, h1, h2⟩ := foldl_maxStep_split xs x
  rw [heq]
  exact List.mem_append.mpr (Or.inr (List.mem_cons_self _ _))

/-! Key order and uniqueness in the frequency table: updating an
insertion-ordered table keeps existing keys in place and appends new keys,
so the key sequence of `buildPatterns` is the first-occurrence order of
pattern keys and contains no duplicates. -/

theorem keys_updateCount (l : List ((Nat × Nat) × Nat)) (k : Nat × Nat) :
    (updateCount l k).map Prod.fst = insertKey (l.map Prod.fst) k := by
  induction l with
  | nil => simp [updateCount, insertKey]
  | cons x rest ih =>
    obtain ⟨k0, c⟩ := x
    by_cases h : k0 = k
    · subst h
      simp [updateCount, insertKey]
    · simp only [updateCount, if_neg h, List.map_cons, ih, insertKey]
      by_cases h2 : k ∈ rest.map Prod.fst
      · rw [if_pos h2, if_pos (List.mem_cons.mpr (Or.inr h2))]
      · have hnot : ¬ k ∈ k0 :: rest.map Prod.fst := by
          intro hmem
          rcases List.mem_cons.mp hmem with heq | hmem2
          · exact h (Eq.symm heq)
          · exact h2 hmem2
        rw [if_neg h2, if_neg hnot, List.cons_append]

theorem keys_foldl (rs : List ScanResult) :
    ∀ acc, (rs.foldl patStep acc).map Prod.fst =
      rs.foldl keyStep (acc.map Prod.fst) := by
  induction rs with
  | nil => intro acc; rfl
  | cons r rest ih =>
    intro acc
    rw [List.foldl_cons, List.foldl_cons, ih]
    congr 1
    rcases h : patKey r with _ | k
    · simp [patStep, keyStep, h]
    · simp [patStep, keyStep, h, keys_updateCount]

theorem keys_buildPatterns (results : List ScanResult) :
    (buildPatterns results).map Prod.fst = firstOccKeys results := by
  have h := keys_foldl results []
  simpa [buildPatterns, firstOccKeys] using h

theorem nodup_insertKey (ks : List (Nat × Nat)) (k : Nat × Nat) (h : ks.Nodup) :
    (insertKey ks k).Nodup := by
  unfold insertKey
  by_cases h2 : k ∈ ks
  · simpa [h2] using h
  · rw [if_neg h2]
    refine List.Nodup.append h (List.nodup_singleton k) ?_
    intro a ha hb
    rw [List.mem_singleton] at hb
    subst hb
    exact h2 ha

theorem nodup_keyStep_foldl (rs : List ScanResult) :
    ∀ ks, ks.Nodup → (rs.foldl keyStep ks).Nodup := by
  induction rs with
  | nil => intro ks h; exact h
  | cons r rest ih =>
    intro ks h
    rw [List.foldl_cons]
    apply ih
    rcases hk : patKey r with _ | k
    · simpa [keyStep, hk] using h
    · simpa [keyStep, hk] using nodup_insertKey ks k h

theorem nodup_firstOccKeys (results : List ScanResult) :
    (firstOccKeys results).Nodup :=
  nodup_keyStep_foldl results [] List.nodup_nil

theorem lookupCount_eq_of_mem (l : List ((Nat × Nat) × Nat)) (k : Nat × Nat)
    (c : Nat) (hnd : (l.map Prod.fst).Nodup) (hm : (k, c) ∈ l) :
    lookupCount l k = c := by
  induction l with
  | nil => cases hm
  | cons x rest ih =>
    obtain ⟨k0, c0⟩ := x
    rw [List.map_cons, List.nodup_cons] at hnd
    rcases List.mem_cons.mp hm with heq | hm2
    · obtain ⟨rfl, rfl⟩ := Prod.mk.injEq .. ▸ heq
      simp [lookupCount]
    · have hk : k ∈ rest.map Prod.fst := List.mem_map.mpr ⟨(k, c), hm2, rfl⟩
      have hne : ¬ (k0 = k) := by
        intro hh
        subst hh
        exact hnd.1 hk
      simp only [lookupCount, if_neg hne]
      exact ih hnd.2 hm2

theorem mem_of_lookupCount_pos (l : List ((Nat × Nat) × Nat)) (k : Nat × Nat)
    (h : 0 < lookupCount l k) : (k, lookupCount l k) ∈ l := by
  induction l with
  | nil => simp [lookupCount] at h
  | cons x rest ih =>
    obtain ⟨k0, c0⟩ := x
    by_cases h2 : k0 = k
    · subst h2
      simp only [lookupCount, if_pos rfl]
      exact List.mem_cons_self _ _
    · simp only [lookupCount, if_neg h2] at h ⊢
      exact List.mem_cons_of_mem _ (ih h)

theorem foldl_patStep_of_no_status (rs : List ScanResult)
    (h : ∀ r ∈ rs, r.status = none) :
    ∀ acc, rs.foldl patStep acc = acc := by
  induction rs with
  | nil => intro acc; rfl
  | cons r rest ih =>
    intro acc
    rw [List.foldl_cons]
    have hr : patKey r = none := by
      simp [patKey, h r (List.mem_cons_self _ _)]
    rw [show patStep acc r = acc from by simp [patStep, hr]]
    exact ih (fun x hx => h x (List.mem_cons_of_mem _ hx)) acc

theorem nodup_keys_buildPatterns (results : List ScanResult) :
    ((buildPatterns results).map Prod.fst).Nodup := by
  rw [keys_buildPatterns]
  exact nodup_firstOccKeys results

/-- C4: the baseline pattern returned by `find_baseline_pattern` occurs at
least as often among the status-bearing results as every other pattern, and
the function returns `(none, 0)` when no result has a status (the empty list
included). -/
theorem find_baseline_pattern_spec (results : List ScanResult) :
    (∀ s l, find_baseline_pattern results = (some s, l) →
      ∀ s2 l2, freqP results (s2, l2) ≤ freqP results (s, l)) ∧
    ((∀ r ∈ results, r.status = none) → find_baseline_pattern results = (none, 0)) := by
  constructor
  · intro s l hfb s2 l2
    rcases hb : buildPatterns results with _ | ⟨x, xs⟩
    · rw [find_baseline_pattern, hb] at hfb
      simp [maxByCount] at hfb
    · rw [find_baseline_pattern, hb] at hfb
      simp only [maxByCount] at hfb
      have hkey : (xs.foldl maxStep x).1 = (s, l) := by
        have h1 := congrArg Prod.fst hfb
        have h2 := congrArg Prod.snd hfb
        simp only [Prod.fst, Prod.snd, Option.some.injEq] at h1 h2
        exact Prod.ext h1 h2
      rw [← lookupCount_buildPatterns results (s2, l2),
        ← lookupCount_buildPatterns results (s, l), hb]
      have hnd : ((x :: xs).map Prod.fst).Nodup := by
        rw [← hb]
        exact nodup_keys_buildPatterns results
      have hmem : ((s, l), (xs.foldl maxStep x).2) ∈ x :: xs := by
        rw [← hkey]
        have h := foldl_maxStep_mem xs x
        simpa using h
      have hlook : lookupCount (x :: xs) (s, l) = (xs.foldl maxStep x).2 :=
        lookupCount_eq_of_mem _ _ _ hnd hmem
      rw [hlook]
      by_cases hz : 0 < lookupCount (x :: xs) (s2, l2)
      · have hmem2 := mem_of_lookupCount_pos (x :: xs) (s2, l2) hz
        exact foldl_maxStep_le xs x _ hmem2
      · omega
  · intro hall
    have hb : buildPatterns results = [] :=
      foldl_patStep_of_no_status results hall []
    rw [find_baseline_pattern, hb]
    rfl

/-- Witness for C4 at the scenario `c8Results`: the minority pattern
`(200, 340)` is no more frequent than the returned baseline `(200, 120)`. -/
theorem find_baseline_pattern_spec_witness :
    freqP c8Results (200, 340) ≤ freqP c8Results (200, 120) :=
  (find_baseline_pattern_spec c8Results).1 200 120 rfl 200 340

/-! First-occurrence order of pattern keys: the key sequence of the frequency
table is sorted by the index of the first result carrying each key. -/

theorem findIdx_append_not_mem {α : Type} (p : α → Bool) (l1 l2 : List α)
    (h : ∀ x ∈ l1, p x = false) :
    List.findIdx p (l1 ++ l2) = l1.length + List.findIdx p l2 := by
  induction l1 with
  | nil => simp
  | cons a t ih =>
    have ha : p a = false := h a (List.mem_cons_self _ _)
    rw [List.cons_append, List.findIdx_cons, ha]
    simp only [cond_false]
    rw [ih (fun x hx => h x (List.mem_cons_of_mem _ hx))]
    simp only [List.length_cons]
    omega

theorem findIdx_append_found {α : Type} (p : α → Bool) (l1 l2 : List α)
    (h : ∃ x ∈ l1, p x = true) :
    List.findIdx p (l1 ++ l2) = List.findIdx p l1 := by
  induction l1 with
  | nil => simp at h
  | cons a t ih =>
    rw [List.cons_append, List.findIdx_cons, List.findIdx_cons]
    cases ha : p a with
    | true => simp
    | false =>
      simp only [cond_false]
      obtain ⟨x, hx, hpx⟩ := h
      rcases List.mem_cons.mp hx with rfl | hx2
      · rw [ha] at hpx
        cases hpx
      · rw [ih ⟨x, hx2, hpx⟩]

theorem mem_insertKey (ks : List (Nat × Nat)) (k0 k : Nat × Nat) :
    k ∈ insertKey ks k0 ↔ k ∈ ks ∨ k = k0 := by
  unfold insertKey
  by_cases h : k0 ∈ ks
  · rw [if_pos h]
    constructor
    · exact Or.inl
    · rintro (h1 | rfl)
      · exact h1
      · exact h
  · rw [if_neg h]
    simp [List.mem_append]

theorem mem_foldl_keyStep (rs : List ScanResult) :
    ∀ ks (k : Nat × Nat), k ∈ rs.foldl keyStep ks ↔
      k ∈ ks ∨ ∃ r ∈ rs, patKey r = some k := by
  induction rs with
  | nil => intro ks k; simp
  | cons r rest ih =>
    intro ks k
    rw [List.foldl_cons, ih]
    have hstep : k ∈ keyStep ks r ↔ k ∈ ks ∨ patKey r = some k := by
      rcases h : patKey r with _ | k0
      · simp [keyStep, h]
      · simp only [keyStep, h, mem_insertKey, Option.some.injEq]
        constructor
        · rintro (h1 | rfl)
          · exact Or.inl h1
          · exact Or.inr rfl
        · rintro (h1 | rfl)
          · exact Or.inl h1
          · exact Or.inr rfl
    rw [hstep]
    simp only [List.mem_cons]
    constructor
    · rintro ((h1 | h1) | ⟨x, hx, hpx⟩)
      · exact Or.inl h1
      · exact Or.inr ⟨r, Or.inl rfl, h1⟩
      · exact Or.inr ⟨x, Or.inr hx, hpx⟩
    · rintro (h1 | ⟨x, hx, hpx⟩)
      · exact Or.inl (Or.inl h1)
      · rcases hx with rfl | hx2
        · exact Or.inl (Or.inr hpx)
        · exact Or.inr ⟨x, hx2, hpx⟩

theorem mem_firstOccKeys (results : List ScanResult) (k : Nat × Nat) :
    k ∈ firstOccKeys results ↔ ∃ r ∈ results, patKey r = some k := by
  have h := mem_foldl_keyStep results [] k
  simpa [firstOccKeys] using h

theorem firstOccKeys_append (l : List ScanResult) (r : ScanResult) :
    firstOccKeys (l ++ [r]) = keyStep (firstOccKeys l) r := by
  simp [firstOccKeys, List.foldl_append]

theorem firstOcc_append_of_mem (l l2 : List ScanResult) (k : Nat × Nat)
    (h : ∃ r ∈ l, patKey r = some k) : firstOcc (l ++ l2) k = firstOcc l k := by
  unfold firstOcc
  apply findIdx_append_found
  obtain ⟨x, hx, hpx⟩ := h
  exact ⟨x, hx, by simp [hpx]⟩

theorem firstOcc_lt_length (l : List ScanResult) (k : Nat × Nat)
    (h : ∃ r ∈ l, patKey r = some k) : firstOcc l k < l.length := by
  apply List.findIdx_lt_length_of_exists
  obtain ⟨x, hx, hpx⟩ := h
  exact ⟨x, hx, by simp [hpx]⟩

theorem firstOcc_append_new (l : List ScanResult) (r : ScanResult) (k : Nat × Nat)
    (hnot : ∀ x ∈ l, ¬ patKey x = some k) (hr : patKey r = some k) :
    firstOcc (l ++ [r]) k = l.length := by
  unfold firstOcc
  rw [findIdx_append_not_mem _ _ _ (fun x hx => by simpa using hnot x hx)]
  rw [List.findIdx_cons]
  simp [hr]

theorem pairwise_firstOcc (results : List ScanResult) :
    (firstOccKeys results).Pairwise
      (fun a b => firstOcc results a < firstOcc results b) := by
  induction results using List.reverseRecOn with
  | nil => simp [firstOccKeys]
  | append_singleton l r ih =>
    rw [firstOccKeys_append]
    have hkeep : (firstOccKeys l).Pairwise
        (fun a b => firstOcc (l ++ [r]) a < firstOcc (l ++ [r]) b) := by
      refine List.Pairwise.imp_of_mem ?_ ih
      intro a b ha hb hab
      have hae := (mem_firstOccKeys l a).mp ha
      have hbe := (mem_firstOccKeys l b).mp hb
      rw [firstOcc_append_of_mem l [r] a hae, firstOcc_append_of_mem l [r] b hbe]
      exact hab
    rcases h : patKey r with _ | k
    · simpa [keyStep, h] using hkeep
    · simp only [keyStep, h]
      unfold insertKey
      by_cases hk : k ∈ firstOccKeys l
      · rw [if_pos hk]
        exact hkeep
      · rw [if_neg hk]
        rw [List.pairwise_append]
        refine ⟨hkeep, List.pairwise_singleton _ _, ?_⟩
        intro a ha b hb
        rw [List.mem_singleton] at hb
        subst hb
        have hae := (mem_firstOccKeys l a).mp ha
        have hnot : ∀ x ∈ l, ¬ patKey x = some b := by
          intro x hx hpx
          exact hk ((mem_firstOccKeys l b).mpr ⟨x, hx, hpx⟩)
        rw [firstOcc_append_of_mem l [r] a hae,
          firstOcc_append_new l r b hnot h]
        exact firstOcc_lt_length l a hae

/-- C5: tie-break by first encounter. The embedding is a pure function, so
two runs on the identical input return the identical baseline; moreover when
a second pattern occurs and ties the returned baseline's frequency, the
returned baseline is the pattern whose first occurrence comes strictly
earlier in the input list. -/
theorem find_baseline_pattern_tie_break (results : List ScanResult)
    (s l s2 l2 : Nat)
    (hfb : find_baseline_pattern results = (some s, l))
    (hne : (s2, l2) ≠ (s, l))
    (htie : freqP results (s2, l2) = freqP results (s, l))
    (hpos : 0 < freqP results (s2, l2)) :
    firstOcc results (s, l) < firstOcc results (s2, l2) := by
  rcases hb : buildPatterns results with _ | ⟨x, xs⟩
  · rw [find_baseline_pattern, hb] at hfb
    simp [maxByCount] at hfb
  · rw [find_baseline_pattern, hb] at hfb
    simp only [maxByCount] at hfb
    have hkey : (xs.foldl maxStep x).1 = (s, l) := by
      have h1 := congrArg Prod.fst hfb
      have h2 := congrArg Prod.snd hfb
      simp only [Prod.fst, Prod.snd, Option.some.injEq] at h1 h2
      exact Prod.ext h1 h2
    have hnd : ((x :: xs).map Prod.fst).Nodup := by
      rw [← hb]
      exact nodup_keys_buildPatterns results
    have hmemm : ((s, l), (xs.foldl maxStep x).2) ∈ x :: xs := by
      rw [← hkey]
      simpa using foldl_maxStep_mem xs x
    have hlookm : lookupCount (x :: xs) (s, l) = (xs.foldl maxStep x).2 :=
      lookupCount_eq_of_mem _ _ _ hnd hmemm
    have hcnt2 : lookupCount (x :: xs) (s2, l2) = freqP results (s2, l2) := by
      rw [← hb, lookupCount_buildPatterns]
    have hcntm : freqP results (s, l) = (xs.foldl maxStep x).2 := by
      rw [← lookupCount_buildPatterns results (s, l), hb, hlookm]
    have hpos2 : 0 < lookupCount (x :: xs) (s2, l2) := by
      rw [hcnt2]
      exact hpos
    have hmem2 : ((s2, l2), lookupCount (x :: xs) (s2, l2)) ∈ x :: xs :=
      mem_of_lookupCount_pos _ _ hpos2
    have hval2 : lookupCount (x :: xs) (s2, l2) = (xs.foldl maxStep x).2 := by
      rw [hcnt2, htie, hcntm]
    obtain ⟨p1, p2, heq, hlt, hle⟩ := foldl_maxStep_split xs x
    obtain ⟨c2, hc2, hmem2c⟩ :
        ∃ c2, c2 = lookupCount (x :: xs) (s2, l2) ∧ ((s2, l2), c2) ∈ x :: xs :=
      ⟨_, rfl, hmem2⟩
    have hin : ((s2, l2), c2) ∈ p2 := by
      rw [heq] at hmem2c
      rcases List.mem_append.mp hmem2c with hA | hA
      · exfalso
        have hlt2 : c2 < (xs.foldl maxStep x).2 := hlt _ hA
        have hc2v : c2 = (xs.foldl maxStep x).2 := by
          rw [hc2]
          exact hval2
        omega
      · rcases List.mem_cons.mp hA with hEq | hA2
        · exfalso
          have hfst : (s2, l2) = (xs.foldl maxStep x).1 := congrArg Prod.fst hEq
          rw [hkey] at hfst
          exact hne hfst
        · exact hA2
    have hkeys : firstOccKeys results =
        p1.map Prod.fst ++ (xs.foldl maxStep x).1 :: p2.map Prod.fst := by
      rw [← keys_buildPatterns, hb, heq]
      simp [List.map_append]
    have hpw := pairwise_firstOcc results
    rw [hkeys] at hpw
    have hpw2 := (List.pairwise_append.mp hpw).2.1
    rw [List.pairwise_cons] at hpw2
    have hb2 : (s2, l2) ∈ p2.map Prod.fst := List.mem_map.mpr ⟨_, hin, rfl⟩
    have hfin := hpw2.1 _ hb2
    rw [hkey] at hfin
    exact hfin

/-- Concrete tie scenario for C5: two disjoint clusters of three results
each, `(200, 100)` encountered first. -/
def c5Results : List ScanResult :=
  [⟨1, "u", some 200, 100, none, none, none⟩,
   ⟨2, "u", some 403, 50, none, none, none⟩,
   ⟨3, "u", some 200, 100, none, none, none⟩,
   ⟨4, "u", some 403, 50, none, none, none⟩,
   ⟨5, "u", some 200, 100, none, none, none⟩,
   ⟨6, "u", some 403, 50, none, none, none⟩]

/-- Witness for C5: on the balanced two-cluster scenario, the baseline is the
first-encountered pattern `(200, 100)`. -/
theorem find_baseline_pattern_tie_break_witness :
    firstOcc c5Results (200, 100) < firstOcc c5Results (403, 50) :=
  find_baseline_pattern_tie_break c5Results 200 100 403 50 rfl
    (by decide) rfl (by decide)
